import Mathlib

/-!
Verification development for the sc3nb OSC control core.

The repository ships only notebooks, documentation and packaging metadata
under src/; the Python implementation of the core (OSC codec, Bundler,
reply queues, ID allocators, timed queue, transport, server facade) is not
present.  Every definition below is therefore modelled from the
specification text (spec.md), with the example notebooks used as caller
evidence where they pin concrete behaviour.  Machine integers are modelled
as Nat/Int with explicit bounds; wall-clock seconds are modelled as exact
rationals; bytes are naturals below 256.
-/

namespace Sc3nb

/-! ## Byte-level helpers for the OSC codec -/

/-- Modelled from the spec: big-endian encoding of a 32-bit unsigned value
into four bytes, as used for OSC int32 payloads, blob lengths and bundle
element sizes. -/
def encodeNat32 (n : ℕ) : List ℕ :=
  [n / 2 ^ 24 % 256, n / 2 ^ 16 % 256, n / 2 ^ 8 % 256, n % 256]

/-- Modelled from the spec: big-endian encoding of a 64-bit unsigned value
into eight bytes, as used for OSC timetags and float64 bit patterns. -/
def encodeNat64 (n : ℕ) : List ℕ :=
  [n / 2 ^ 56 % 256, n / 2 ^ 48 % 256, n / 2 ^ 40 % 256, n / 2 ^ 32 % 256,
   n / 2 ^ 24 % 256, n / 2 ^ 16 % 256, n / 2 ^ 8 % 256, n % 256]

/-- Big-endian decoding of four bytes. -/
def decodeNat32 : List ℕ → ℕ
  | [a, b, c, d] => a * 2 ^ 24 + b * 2 ^ 16 + c * 2 ^ 8 + d
  | _ => 0

/-- Big-endian decoding of eight bytes. -/
def decodeNat64 : List ℕ → ℕ
  | [a, b, c, d, e, f, g, h] =>
      a * 2 ^ 56 + b * 2 ^ 48 + c * 2 ^ 40 + d * 2 ^ 32 +
      e * 2 ^ 24 + f * 2 ^ 16 + g * 2 ^ 8 + h
  | _ => 0

theorem decodeNat32_encodeNat32 (n : ℕ) (h : n < 2 ^ 32) :
    decodeNat32 (encodeNat32 n) = n := by
  simp only [encodeNat32, decodeNat32]
  omega

theorem decodeNat64_encodeNat64 (n : ℕ) (h : n < 2 ^ 64) :
    decodeNat64 (encodeNat64 n) = n := by
  simp only [encodeNat64, decodeNat64]
  omega

/-! ## ID allocators (spec 4.4) -/

/-- Error kinds raised by the allocator (spec 7). -/
inductive AllocError where
  | Exhausted
  | InvalidId
  deriving DecidableEq, Repr

/-- Modelled from the spec: an ID allocator holds an inclusive range
[low, high], a monotone cursor and a free-list kept in insertion order
(spec 3 "ID allocator", spec 4.4). -/
structure IDAllocator where
  low : ℕ
  high : ℕ
  cursor : ℕ
  freeList : List ℕ
  deriving DecidableEq, Repr

/-- A fresh allocator over [low, high]: cursor at low, empty free-list. -/
def IDAllocator.fresh (low high : ℕ) : IDAllocator :=
  ⟨low, high, low, []⟩

/-- Modelled from the spec: allocate(n) returns n IDs preferring the
free-list in insertion order; if the free-list is insufficient it instead
advances the cursor by n (keeping the fresh IDs consecutive, as the S3
scenario and the server notebook show), refusing to cross high (failing
Exhausted) (spec 4.4, spec 8 S3). -/
def IDAllocator.allocate (a : IDAllocator) (n : ℕ) :
    Except AllocError (List ℕ × IDAllocator) :=
  if n ≤ a.freeList.length then
    .ok (a.freeList.take n, ⟨a.low, a.high, a.cursor, a.freeList.drop n⟩)
  else if a.cursor + n ≤ a.high + 1 then
    .ok (List.range' a.cursor n, ⟨a.low, a.high, a.cursor + n, a.freeList⟩)
  else
    .error .Exhausted

/-- Modelled from the spec: free(ids) returns the IDs to the free-list
without reordering; freeing an ID not currently allocated (including
double-free) fails with InvalidId (spec 4.4, spec 7). -/
def IDAllocator.freeIds (a : IDAllocator) (ids : List ℕ) :
    Except AllocError IDAllocator :=
  if ids.all (fun i => a.low ≤ i ∧ i < a.cursor ∧ i ∉ a.freeList) then
    .ok ⟨a.low, a.high, a.cursor, a.freeList ++ ids⟩
  else
    .error .InvalidId

/-- Well-formedness of an allocator state: the cursor stays inside
[low, high + 1] and the free-list holds only previously handed-out IDs. -/
def IDAllocator.Wf (a : IDAllocator) : Prop :=
  a.low ≤ a.cursor ∧ a.cursor ≤ a.high + 1 ∧
    ∀ i ∈ a.freeList, a.low ≤ i ∧ i < a.cursor

/-! ## Reply queues (spec 4.2) -/

/-- Modelled from the spec: a reply queue is a FIFO of decoded message
payloads together with a monotone counter of items dropped by the skip
policy (spec 3 "Reply queue", spec 4.2). -/
structure MsgQueue (α : Type) where
  items : List α
  skips : ℕ
  deriving DecidableEq, Repr

/-- Enqueue by the transport receive loop: append to the FIFO. -/
def MsgQueue.put {α : Type} (q : MsgQueue α) (x : α) : MsgQueue α :=
  ⟨q.items ++ [x], q.skips⟩

/-- Modelled from the spec: get with skip=true drains all but the last
item (each drained item increments skips) and returns the last one; with
skip=false it returns the oldest item and leaves the rest (spec 4.2).
Returns none when the queue is empty (the blocking/timeout path). -/
def MsgQueue.get {α : Type} (skip : Bool) (q : MsgQueue α) :
    Option (α × MsgQueue α) :=
  match q.items with
  | [] => none
  | x :: xs =>
    if skip then
      some ((x :: xs).getLast (by simp), ⟨[], q.skips + xs.length⟩)
    else
      some (x, ⟨xs, q.skips⟩)

/-! ## OSC transport send path (spec 4.3) -/

/-- Error kinds surfaced by the transport send path (spec 7). -/
inductive SendError where
  | PacketTooLarge
  deriving DecidableEq, Repr

/-- Default outgoing datagram size ceiling, in bytes (spec 4.3). -/
def defaultMTU : ℕ := 8192

/-- Modelled from the spec: the transport state relevant to sending — the
configured MTU and the list of datagrams already written to the socket. -/
structure OSCTransport where
  mtu : ℕ
  sent : List (List ℕ)
  deriving DecidableEq, Repr

/-- Modelled from the spec: send(packet) writes one datagram; if the
encoded datagram exceeds the configured MTU it fails synchronously with
PacketTooLarge and transmits nothing (spec 4.3, spec 7). -/
def OSCTransport.send (t : OSCTransport) (dgram : List ℕ) :
    Except SendError Unit × OSCTransport :=
  if dgram.length ≤ t.mtu then
    (.ok (), ⟨t.mtu, t.sent ++ [dgram]⟩)
  else
    (.error .PacketTooLarge, t)

/-! ## Sync correlation (spec 4.7) -/

/-- Modelled from the spec: sync() allocates a fresh 31-bit positive
integer id (spec 4.7); we model the generator as a function of an
arbitrary seed, landing in [1, 2^31). -/
def genSyncId (seed : ℕ) : ℕ :=
  seed % (2 ^ 31 - 1) + 1

/-- The outgoing message sent by sync(): /sync id (spec 4.7). The address
is modelled as its ASCII bytes. -/
def syncRequest (id : ℕ) : List ℕ × List ℕ :=
  ([47, 115, 121, 110, 99], [id])

/-- Modelled from the spec: delivery of incoming /synced replies to the
in-flight sync callers, matching by the integer argument (spec 4.7).
Each arrival completes exactly the waiter whose id equals it; the result
lists (waiter, delivered value) pairs in arrival order. -/
def processSynced : List ℕ → List ℕ → List (ℕ × ℕ)
  | _, [] => []
  | pending, r :: rest =>
    if r ∈ pending then (r, r) :: processSynced (pending.erase r) rest
    else processSynced pending rest

theorem processSynced_self (pending arrivals : List ℕ) :
    ∀ p ∈ processSynced pending arrivals, p.2 = p.1 := by
  induction arrivals generalizing pending with
  | nil => intro p hp; simp [processSynced] at hp
  | cons r rest ih =>
    intro p hp
    simp only [processSynced] at hp
    split at hp
    · rcases List.mem_cons.mp hp with h | h
      · simp [h]
      · exact ih _ p h
    · exact ih _ p hp

/-! ## OSC codec: arguments and messages (spec 4.1) -/

/-- Modelled from the spec: an OSC argument is a tagged union of 32-bit
signed integer, 64-bit float, UTF-8 string and raw byte blob (spec 3).
Strings and blobs are modelled as their byte sequences; a float64 is
modelled by its 64-bit IEEE-754 bit pattern, since the codec only moves
the eight raw bytes. -/
inductive OSCArg where
  | i32 (n : ℤ)
  | f64 (bits : ℕ)
  | str (s : List ℕ)
  | blob (b : List ℕ)
  deriving DecidableEq, Repr

/-- Validity of the bytes of an OSC string: bytes below 256 and free of
the NUL terminator. -/
def ValidStrBytes (s : List ℕ) : Prop :=
  ∀ b ∈ s, b < 256 ∧ b ≠ 0

instance : DecidablePred ValidStrBytes := fun s =>
  decidable_of_iff (∀ b ∈ s, b < 256 ∧ b ≠ 0) Iff.rfl

/-- Validity of one argument: the int fits in signed 32 bits, the float
bit pattern fits in 64 bits, string bytes are NUL-free bytes, blob bytes
are bytes and the blob length is representable in 32 bits. -/
def OSCArg.Valid : OSCArg → Prop
  | .i32 n => -2 ^ 31 ≤ n ∧ n < 2 ^ 31
  | .f64 bits => bits < 2 ^ 64
  | .str s => ValidStrBytes s
  | .blob b => (∀ x ∈ b, x < 256) ∧ b.length < 2 ^ 32

instance : DecidablePred OSCArg.Valid := fun a => by
  cases a <;> simp only [OSCArg.Valid] <;> infer_instance

/-- Modelled from the spec: the OSC type tag assigned to each argument
kind by the inference rule int32 -> 'i', float64 -> 'd', string -> 's',
blob -> 'b' (spec 4.1); tags are stored as ASCII bytes. -/
def OSCArg.tag : OSCArg → ℕ
  | .i32 _ => 105
  | .f64 _ => 100
  | .str _ => 115
  | .blob _ => 98

/-- Modelled from the spec: an untyped caller-provided value, as handed to
msg()/Bundler.add by user code (spec 4.1 "Argument-type inference"). -/
inductive PyVal where
  | pint (n : ℤ)
  | pfloat (bits : ℕ)
  | pstr (s : List ℕ)
  | pbytes (b : List ℕ)
  deriving DecidableEq, Repr

/-- Modelled from the spec: the argument-type inference rule — signed
integers fitting 32 bits become int32, floats become float64, strings
become string, raw bytes become blob (spec 4.1). -/
def inferArg : PyVal → OSCArg
  | .pint n => .i32 n
  | .pfloat bits => .f64 bits
  | .pstr s => .str s
  | .pbytes b => .blob b

/-- OSC string encoding: the bytes followed by one to four NUL bytes,
padding the total length to a multiple of four (spec 4.1). -/
def encodeOscString (s : List ℕ) : List ℕ :=
  s ++ List.replicate (4 - s.length % 4) 0

/-- Blob padding: zero to three NUL bytes after the payload. -/
def blobPad (len : ℕ) : ℕ := (4 - len % 4) % 4

/-- Two's-complement reading of a 32-bit unsigned value. -/
def toSigned32 (n : ℕ) : ℤ :=
  if n < 2 ^ 31 then (n : ℤ) else (n : ℤ) - 2 ^ 32

/-- Payload bytes of one argument, in declared order (spec 4.1):
int32 big-endian two's complement, float64 as its eight pattern bytes,
string NUL-padded, blob as 32-bit length plus padded payload. -/
def OSCArg.payload : OSCArg → List ℕ
  | .i32 n => encodeNat32 (n % 2 ^ 32).toNat
  | .f64 bits => encodeNat64 bits
  | .str s => encodeOscString s
  | .blob b => encodeNat32 b.length ++ b ++ List.replicate (blobPad b.length) 0

/-- Modelled from the spec: an OSC message is an address pattern starting
with '/' plus an ordered argument sequence (spec 3); the address is
modelled as its ASCII bytes. -/
structure OSCMessage where
  addr : List ℕ
  args : List OSCArg
  deriving DecidableEq, Repr

/-- Validity of a message: the address is a NUL-free byte string starting
with '/' (byte 47) and every argument is valid. -/
def OSCMessage.Valid (m : OSCMessage) : Prop :=
  ValidStrBytes m.addr ∧ m.addr.head? = some 47 ∧ ∀ a ∈ m.args, a.Valid

instance : DecidablePred OSCMessage.Valid := fun m => by
  unfold OSCMessage.Valid; infer_instance

/-- Modelled from the spec: OSC 1.0 message encoding — padded address,
',' + type-tag string padded, then the argument payloads in order
(spec 4.1). -/
def encodeMessage (m : OSCMessage) : List ℕ :=
  encodeOscString m.addr ++ encodeOscString (44 :: m.args.map OSCArg.tag) ++
    (m.args.map OSCArg.payload).flatten

/-- Parse one padded OSC string: take the bytes up to the first NUL and
consume through the padding; fails when no terminator fits. -/
def parseOscString (bs : List ℕ) : Option (List ℕ × List ℕ) :=
  let s := bs.takeWhile (fun b => b ≠ 0)
  let total := s.length + (4 - s.length % 4)
  if s.length < bs.length ∧ total ≤ bs.length then
    some (s, bs.drop total)
  else
    none

/-- Parse the argument payloads declared by a tag-byte list. -/
def parseArgs : List ℕ → List ℕ → Option (List OSCArg × List ℕ)
  | [], bs => some ([], bs)
  | 105 :: ts, bs =>
    if 4 ≤ bs.length then
      (parseArgs ts (bs.drop 4)).map
        (fun r => (.i32 (toSigned32 (decodeNat32 (bs.take 4))) :: r.1, r.2))
    else none
  | 100 :: ts, bs =>
    if 8 ≤ bs.length then
      (parseArgs ts (bs.drop 8)).map
        (fun r => (.f64 (decodeNat64 (bs.take 8)) :: r.1, r.2))
    else none
  | 115 :: ts, bs =>
    (parseOscString bs).bind
      (fun sr => (parseArgs ts sr.2).map (fun r => (.str sr.1 :: r.1, r.2)))
  | 98 :: ts, bs =>
    if 4 ≤ bs.length then
      let len := decodeNat32 (bs.take 4)
      let rest := bs.drop 4
      if len + blobPad len ≤ rest.length then
        (parseArgs ts (rest.drop (len + blobPad len))).map
          (fun r => (.blob (rest.take len) :: r.1, r.2))
      else none
    else none
  | _ :: _, _ => none

/-- Modelled from the spec: OSC 1.0 message decoding — padded address
(must start with '/'), padded type-tag string starting with ',', then the
argument payloads; fails (MalformedPacket) on any malformed part
(spec 4.1). -/
def decodeMessage (bs : List ℕ) : Option OSCMessage :=
  (parseOscString bs).bind fun ar =>
    if ar.1.head? = some 47 then
      (parseOscString ar.2).bind fun tr =>
        match tr.1 with
        | 44 :: ts =>
          (parseArgs ts tr.2).bind fun r =>
            if r.2 = [] then some ⟨ar.1, r.1⟩ else none
        | _ => none
    else none

theorem takeWhile_append_stop (p : ℕ → Bool) (s t : List ℕ)
    (hs : ∀ b ∈ s, p b = true) (h0 : p 0 = false) :
    (s ++ 0 :: t).takeWhile p = s := by
  induction s with
  | nil => simp [List.takeWhile_cons, h0]
  | cons x xs ih =>
    simp only [List.cons_append, List.takeWhile_cons, hs x (by simp)]
    simp [ih (fun b hb => hs b (by simp [hb]))]

theorem length_encodeNat32 (n : ℕ) : (encodeNat32 n).length = 4 := rfl

theorem length_encodeNat64 (n : ℕ) : (encodeNat64 n).length = 8 := rfl

theorem parseOscString_encode (s rest : List ℕ) (h : ValidStrBytes s) :
    parseOscString (encodeOscString s ++ rest) = some (s, rest) := by
  have hk : 1 ≤ 4 - s.length % 4 := by omega
  have hrep : List.replicate (4 - s.length % 4) 0 =
      0 :: List.replicate (4 - s.length % 4 - 1) 0 := by
    cases hE : 4 - s.length % 4 with
    | zero => omega
    | succ k => simp [List.replicate]
  have htw : ((encodeOscString s ++ rest).takeWhile (fun b => b ≠ 0)) = s := by
    unfold encodeOscString
    rw [hrep]
    rw [List.append_assoc, List.cons_append]
    exact takeWhile_append_stop _ s _ (fun b hb => by simp [(h b hb).2]) (by simp)
  unfold parseOscString
  simp only [htw]
  have hlen : (encodeOscString s ++ rest).length =
      s.length + (4 - s.length % 4) + rest.length := by
    simp [encodeOscString]
    omega
  rw [if_pos]
  · have hdrop : (encodeOscString s ++ rest).drop (s.length + (4 - s.length % 4)) =
        rest := by
      have : s.length + (4 - s.length % 4) = (encodeOscString s).length := by
        simp [encodeOscString]
      rw [this, List.drop_left]
    rw [hdrop]
  · constructor <;> omega

theorem toSigned32_mod (n : ℤ) (h1 : -2 ^ 31 ≤ n) (h2 : n < 2 ^ 31) :
    toSigned32 (n % 2 ^ 32).toNat = n := by
  unfold toSigned32
  split <;> omega

theorem parseArgs_payloads (args : List OSCArg) (rest : List ℕ)
    (h : ∀ a ∈ args, a.Valid) :
    parseArgs (args.map OSCArg.tag) ((args.map OSCArg.payload).flatten ++ rest) =
      some (args, rest) := by
  induction args with
  | nil => simp [parseArgs]
  | cons a as ih =>
    have hA : a.Valid := h a (by simp)
    have ihA := ih (fun x hx => h x (by simp [hx]))
    have hflat : ((a :: as).map OSCArg.payload).flatten ++ rest =
        a.payload ++ ((as.map OSCArg.payload).flatten ++ rest) := by
      simp
    rw [hflat]
    cases a with
    | i32 n =>
      obtain ⟨hlo, hhi⟩ := hA
      have hmod : (n % 2 ^ 32).toNat < 2 ^ 32 := by omega
      simp only [OSCArg.tag, OSCArg.payload, List.map_cons, parseArgs]
      rw [if_pos (by simp [length_encodeNat32])]
      have ht4 : (encodeNat32 (n % 2 ^ 32).toNat ++
          ((as.map OSCArg.payload).flatten ++ rest)).take 4 =
          encodeNat32 (n % 2 ^ 32).toNat := by
        conv in List.take 4 _ => rw [show 4 = (encodeNat32 (n % 2 ^ 32).toNat).length from rfl]
        exact List.take_left _ _
      have hd4 : (encodeNat32 (n % 2 ^ 32).toNat ++
          ((as.map OSCArg.payload).flatten ++ rest)).drop 4 =
          (as.map OSCArg.payload).flatten ++ rest := by
        conv in List.drop 4 _ => rw [show 4 = (encodeNat32 (n % 2 ^ 32).toNat).length from rfl]
        exact List.drop_left _ _
      rw [ht4, hd4, ihA, decodeNat32_encodeNat32 _ hmod, toSigned32_mod n hlo hhi]
      rfl
    | f64 bits =>
      have hb : bits < 2 ^ 64 := hA
      simp only [OSCArg.tag, OSCArg.payload, List.map_cons, parseArgs]
      rw [if_pos (by simp [length_encodeNat64])]
      have ht8 : (encodeNat64 bits ++ ((as.map OSCArg.payload).flatten ++ rest)).take 8 =
          encodeNat64 bits := by
        conv in List.take 8 _ => rw [show 8 = (encodeNat64 bits).length from rfl]
        exact List.take_left _ _
      have hd8 : (encodeNat64 bits ++ ((as.map OSCArg.payload).flatten ++ rest)).drop 8 =
          (as.map OSCArg.payload).flatten ++ rest := by
        conv in List.drop 8 _ => rw [show 8 = (encodeNat64 bits).length from rfl]
        exact List.drop_left _ _
      rw [ht8, hd8, ihA, decodeNat64_encodeNat64 _ hb]
      rfl
    | str s =>
      simp only [OSCArg.tag, OSCArg.payload, List.map_cons, parseArgs]
      rw [parseOscString_encode s _ hA]
      simp only [Option.some_bind]
      rw [ihA]
      rfl
    | blob b =>
      obtain ⟨hbytes, hblen⟩ := hA
      simp only [OSCArg.tag, OSCArg.payload, List.map_cons, parseArgs]
      have hsplit : (encodeNat32 b.length ++ b ++ List.replicate (blobPad b.length) 0) ++
          ((as.map OSCArg.payload).flatten ++ rest) =
          encodeNat32 b.length ++ ((b ++ List.replicate (blobPad b.length) 0) ++
            ((as.map OSCArg.payload).flatten ++ rest)) := by
        simp [List.append_assoc]
      rw [hsplit]
      rw [if_pos (by simp [length_encodeNat32])]
      have ht4 : (encodeNat32 b.length ++ ((b ++ List.replicate (blobPad b.length) 0) ++
          ((as.map OSCArg.payload).flatten ++ rest))).take 4 = encodeNat32 b.length := by
        conv in List.take 4 _ => rw [show 4 = (encodeNat32 b.length).length from rfl]
        exact List.take_left _ _
      have hd4 : (encodeNat32 b.length ++ ((b ++ List.replicate (blobPad b.length) 0) ++
          ((as.map OSCArg.payload).flatten ++ rest))).drop 4 =
          (b ++ List.replicate (blobPad b.length) 0) ++
            ((as.map OSCArg.payload).flatten ++ rest) := by
        conv in List.drop 4 _ => rw [show 4 = (encodeNat32 b.length).length from rfl]
        exact List.drop_left _ _
      rw [ht4, hd4, decodeNat32_encodeNat32 _ hblen]
      have hcond : b.length + blobPad b.length ≤
          ((b ++ List.replicate (blobPad b.length) 0) ++
            ((as.map OSCArg.payload).flatten ++ rest)).length := by
        simp only [List.length_append, List.length_replicate]
        omega
      rw [if_pos hcond]
      have hpadlen : b.length + blobPad b.length =
          (b ++ List.replicate (blobPad b.length) 0).length := by
        simp
      have htb : ((b ++ List.replicate (blobPad b.length) 0) ++
          ((as.map OSCArg.payload).flatten ++ rest)).take b.length = b := by
        rw [List.append_assoc, List.take_append_of_le_length (by simp)]
        simp
      have hdb : ((b ++ List.replicate (blobPad b.length) 0) ++
          ((as.map OSCArg.payload).flatten ++ rest)).drop (b.length + blobPad b.length) =
          (as.map OSCArg.payload).flatten ++ rest := by
        rw [hpadlen, List.drop_left]
      rw [htb, hdb, ihA]
      rfl

theorem decodeMessage_encodeMessage (m : OSCMessage) (h : m.Valid) :
    decodeMessage (encodeMessage m) = some m := by
  obtain ⟨haddr, hhead, hargs⟩ := h
  have htags : ValidStrBytes (44 :: m.args.map OSCArg.tag) := by
    intro b hb
    rcases List.mem_cons.mp hb with rfl | hb
    · omega
    · obtain ⟨a, _, rfl⟩ := List.mem_map.mp hb
      cases a <;> simp [OSCArg.tag]
  unfold decodeMessage encodeMessage
  rw [List.append_assoc, parseOscString_encode m.addr _ haddr]
  simp only [Option.some_bind]
  rw [if_pos hhead, parseOscString_encode _ _ htags]
  simp only [Option.some_bind]
  have : (m.args.map OSCArg.payload).flatten =
      (m.args.map OSCArg.payload).flatten ++ [] := by simp
  rw [this, parseArgs_payloads m.args [] hargs]
  simp

/-! ## Timetags (spec 4.1) -/

/-- Threshold below which a timetag input counts as relative seconds. -/
def smallTimetagBound : ℚ := 1000000

/-- Seconds between the NTP epoch (1900-01-01) and the Unix epoch. -/
def ntpDelta : ℕ := 2208988800

/-- Modelled from the spec: resolution of a timetag input against a
wall-clock context — small values (below 1e6) are seconds relative to the
context and are added to it; larger values are absolute Unix seconds and
override the context (spec 4.1 "Timetag encoding", spec 4.5). -/
def resolveTime (ctx t : ℚ) : ℚ :=
  if t < smallTimetagBound then ctx + t else t

/-- Modelled from the spec: 64-bit NTP encoding of an absolute Unix time:
high 32 bits are whole seconds since 1900 (Unix seconds plus 2208988800),
low 32 bits are fractional seconds (spec 4.1). -/
def ntpTimetag (t : ℚ) : ℕ :=
  (t.floor.toNat + ntpDelta) % 2 ^ 32 * 2 ^ 32 +
    ((t - (t.floor : ℚ)) * 2 ^ 32).floor.toNat % 2 ^ 32

/-- The sentinel timetag value meaning "execute immediately" (spec 4.1). -/
def immediateTimetag : ℕ := 1

/-! ## Bundler (spec 4.5) -/

mutual
/-- Modelled from the spec: a Bundler holds a timetag base, a write cursor
passed_time and an ordered sequence of staged entries (spec 3 "Bundler");
the Python implementation is absent from src/, so the operations below are
reconstructed from spec 4.5 and the notebook callers. -/
inductive Bundler where
  | mk (timetag : ℚ) (passedTime : ℚ) (contents : List BElem)

/-- One staged entry: the anchor time recorded by add (relative when
small, absolute when large) and a message or nested bundler. -/
inductive BElem where
  | msg (etime : ℚ) (m : OSCMessage)
  | sub (etime : ℚ) (child : Bundler)
end

def Bundler.timetag : Bundler → ℚ
  | .mk t _ _ => t

def Bundler.passedTime : Bundler → ℚ
  | .mk _ p _ => p

def Bundler.contents : Bundler → List BElem
  | .mk _ _ c => c

/-- Bundler(timetag): fresh bundler with passed_time 0 and no entries;
server-created bundlers pass the facade latency as the base (spec 4.5,
spec 4.7). -/
def Bundler.new (tt : ℚ) : Bundler := .mk tt 0 []

/-- Modelled from the spec: wait(delta) advances passed_time (spec 4.5). -/
def Bundler.wait (b : Bundler) (d : ℚ) : Bundler :=
  .mk b.timetag (b.passedTime + d) b.contents

/-- The anchor recorded for a new entry added with explicit offset o: a
small offset is clamped to be non-negative and anchored at the current
passed_time (the notebook shows wait() delays entries added with explicit
offsets too); a large offset is an absolute time and is kept as is. -/
def Bundler.entryTime (b : Bundler) (o : ℚ) : ℚ :=
  if o < smallTimetagBound then b.passedTime + max o 0 else o

/-- Modelled from the spec: add(offset, message) appends one message entry
(spec 4.5). -/
def Bundler.addMsg (b : Bundler) (o : ℚ) (m : OSCMessage) : Bundler :=
  .mk b.timetag b.passedTime (b.contents ++ [.msg (b.entryTime o) m])

/-- add(message) without an explicit offset: anchored at the current
passed_time (spec 4.5); this is also the path taken by captured
msg(..., bundle=True) calls while the bundler is active (spec 4.7). -/
def Bundler.addMsgAuto (b : Bundler) (m : OSCMessage) : Bundler :=
  b.addMsg 0 m

/-- Modelled from the spec: add(offset, child bundler) appends one nested
bundler entry (spec 4.5). -/
def Bundler.addSub (b : Bundler) (o : ℚ) (c : Bundler) : Bundler :=
  .mk b.timetag b.passedTime (b.contents ++ [.sub (b.entryTime o) c])

/-- add(child bundler) without an explicit offset (spec 4.5); also what a
nested capture scope does on exit, adding itself to the parent. -/
def Bundler.addSubAuto (b : Bundler) (c : Bundler) : Bundler :=
  b.addSub 0 c

/-- Modelled from the spec: an OSC packet is a message or a bundle with a
64-bit timetag and an ordered element sequence (spec 3 "OSC bundle"). -/
inductive OSCPacket where
  | pmsg (m : OSCMessage)
  | pbundle (tag : ℕ) (elems : List OSCPacket)

/-- The literal "#bundle" marker bytes with NUL terminator (spec 4.1). -/
def bundleHeader : List ℕ := [35, 98, 117, 110, 100, 108, 101, 0]

mutual
/-- Modelled from the spec: OSC 1.0 bundle encoding — the "#bundle" marker,
the 64-bit timetag, then each element prefixed by its 32-bit big-endian
size (spec 4.1). -/
def OSCPacket.encode : OSCPacket → List ℕ
  | .pmsg m => encodeMessage m
  | .pbundle tag elems => bundleHeader ++ encodeNat64 tag ++ encodeElems elems

def encodeElems : List OSCPacket → List ℕ
  | [] => []
  | e :: es => encodeNat32 e.encode.length ++ e.encode ++ encodeElems es
end

mutual
/-- Modelled from the spec: flattening a bundler under a resolved
wall-clock context ctx — the bundle's own timetag is its base resolved
against ctx; a message entry is emitted inside a child bundle whose
timetag is the entry anchor resolved against the bundle time; a nested
bundler entry recurses with that resolved anchor as its context, so a
small child base adds on top while an absolute child base overrides
(spec 4.5 "Flattening semantics", spec 3 "Bundler"). -/
def Bundler.flattenAt (ctx : ℚ) : Bundler → OSCPacket
  | .mk tt _ cs =>
    .pbundle (ntpTimetag (resolveTime ctx tt)) (flattenElems (resolveTime ctx tt) cs)

def flattenElems (T : ℚ) : List BElem → List OSCPacket
  | [] => []
  | .msg et m :: es =>
    .pbundle (ntpTimetag (resolveTime T et)) [.pmsg m] :: flattenElems T es
  | .sub et c :: es =>
    c.flattenAt (resolveTime T et) :: flattenElems T es
end

/-- Modelled from the spec: to_raw_osc(time_offset) renders the complete
nested OSC datagram anchored at time_offset (spec 4.5); the wall-clock is
read only here, at flatten-to-datagram time. -/
def Bundler.to_raw_osc (b : Bundler) (timeOffset : ℚ) : List ℕ :=
  (b.flattenAt timeOffset).encode

mutual
/-- Modelled from the spec: messages() — the ordered flat list of
(absolute time, message) pairs of a bundler (spec 4.5), mirroring the
timetag composition of flattenAt. -/
def Bundler.messagesAt (ctx : ℚ) : Bundler → List (ℚ × OSCMessage)
  | .mk tt _ cs => messagesElems (resolveTime ctx tt) cs

def messagesElems (T : ℚ) : List BElem → List (ℚ × OSCMessage)
  | [] => []
  | .msg et m :: es => (resolveTime T et, m) :: messagesElems T es
  | .sub et c :: es => c.messagesAt (resolveTime T et) ++ messagesElems T es
end

/-! ## Timed dispatch queue (spec 4.6) -/

/-- Modelled from the spec: a timed task keyed by (deadline, seq) with its
action (spec 3 "Timed task"); actions are identified by a numeric label,
which suffices for the ordering claims. -/
structure TimedTask where
  deadline : ℚ
  seq : ℕ
  action : ℕ
  deriving DecidableEq, Repr

/-- Strict (deadline, seq) priority: earlier deadline first, equal
deadlines by insertion seq (spec 3, spec 4.6). -/
def taskBefore (t u : TimedTask) : Prop :=
  t.deadline < u.deadline ∨ (t.deadline = u.deadline ∧ t.seq < u.seq)

instance : DecidableRel taskBefore := fun t u =>
  inferInstanceAs
    (Decidable (t.deadline < u.deadline ∨ (t.deadline = u.deadline ∧ t.seq < u.seq)))

theorem taskBefore_trans {a b c : TimedTask} (h1 : taskBefore a b)
    (h2 : taskBefore b c) : taskBefore a c := by
  rcases h1 with h1 | ⟨e1, s1⟩ <;> rcases h2 with h2 | ⟨e2, s2⟩
  · exact .inl (h1.trans h2)
  · exact .inl (e2 ▸ h1)
  · exact .inl (e1 ▸ h2)
  · exact .inr ⟨e1.trans e2, s1.trans s2⟩

theorem taskBefore_of_not {a b : TimedTask} (h : ¬ taskBefore a b)
    (hs : b.seq < a.seq) : taskBefore b a := by
  unfold taskBefore at *
  push_neg at h
  rcases lt_trichotomy b.deadline a.deadline with hd | hd | hd
  · exact .inl hd
  · exact .inr ⟨hd, hs⟩
  · exact absurd hd (not_lt.mpr h.1)

/-- Whether a task is due at wall-clock now. -/
def TimedTask.isDue (t : TimedTask) (now : ℚ) : Bool :=
  t.deadline ≤ now

/-- Insertion into the priority queue, keeping (deadline, seq) order; a
new task goes after every task with the same deadline since its seq is
fresh (spec 4.6). -/
def insertTask (t : TimedTask) : List TimedTask → List TimedTask
  | [] => [t]
  | u :: rest => if taskBefore t u then t :: u :: rest else u :: insertTask t rest

/-- Modelled from the spec: the timed queue state — the pending tasks in
priority order, the next insertion seq, and the log of actions already
executed by the worker, in execution order (spec 4.6). -/
structure TimedQueue where
  tasks : List TimedTask
  nextSeq : ℕ
  log : List ℕ

def TimedQueue.empty : TimedQueue := ⟨[], 0, []⟩

/-- Modelled from the spec: put(deadline, action) enqueues with the next
insertion seq; nothing executes at put time (spec 4.6). -/
def TimedQueue.put (q : TimedQueue) (deadline : ℚ) (action : ℕ) : TimedQueue :=
  ⟨insertTask ⟨deadline, q.nextSeq, action⟩ q.tasks, q.nextSeq + 1, q.log⟩

/-- Modelled from the spec: a worker wake at wall-clock now executes all
due tasks in queue order, appending their actions to the log, and leaves
the rest pending (spec 4.6). -/
def TimedQueue.wake (q : TimedQueue) (now : ℚ) : TimedQueue :=
  ⟨q.tasks.dropWhile (fun t => t.isDue now), q.nextSeq,
   q.log ++ (q.tasks.takeWhile (fun t => t.isDue now)).map TimedTask.action⟩

/-- An external event hitting the queue: a submission or a worker wake. -/
inductive TQEvent where
  | put (deadline : ℚ) (action : ℕ)
  | wake (now : ℚ)

def TimedQueue.step (q : TimedQueue) : TQEvent → TimedQueue
  | .put d a => q.put d a
  | .wake now => q.wake now

def TimedQueue.run (q : TimedQueue) (es : List TQEvent) : TimedQueue :=
  es.foldl TimedQueue.step q

/-- Queue invariant: tasks are strictly ordered by (deadline, seq) and
every pending seq is below the next insertion seq. -/
def TimedQueue.Wf (q : TimedQueue) : Prop :=
  q.tasks.Pairwise taskBefore ∧ ∀ t ∈ q.tasks, t.seq < q.nextSeq

/-! ## Claim theorems -/

/-- Claim C2: on a fresh buffer-ID allocator over [0, 1023], allocate(5)
returns [0,1,2,3,4]; after free([0,1]), allocate(4) returns [5,6,7,8]; a
subsequent allocate(2) returns [0,1].  In general allocate(n) returns n
IDs preferring the free-list in insertion order, otherwise advances the
cursor, and fails with Exhausted rather than crossing the range's high
bound. -/
theorem claim_C2 :
    ((IDAllocator.fresh 0 1023).allocate 5 =
        .ok ([0, 1, 2, 3, 4], ⟨0, 1023, 5, []⟩) ∧
      (IDAllocator.mk 0 1023 5 []).freeIds [0, 1] = .ok ⟨0, 1023, 5, [0, 1]⟩ ∧
      (IDAllocator.mk 0 1023 5 [0, 1]).allocate 4 =
        .ok ([5, 6, 7, 8], ⟨0, 1023, 9, [0, 1]⟩) ∧
      (IDAllocator.mk 0 1023 9 [0, 1]).allocate 2 =
        .ok ([0, 1], ⟨0, 1023, 9, []⟩)) ∧
    (∀ (a : IDAllocator) (n : ℕ), n ≤ a.freeList.length →
      a.allocate n =
        .ok (a.freeList.take n, ⟨a.low, a.high, a.cursor, a.freeList.drop n⟩)) ∧
    (∀ (a : IDAllocator) (n : ℕ), a.freeList.length < n →
      a.high + 1 < a.cursor + n → a.allocate n = .error .Exhausted) ∧
    (∀ (a : IDAllocator) (n : ℕ) (ids : List ℕ) (a' : IDAllocator),
      a.Wf → a.allocate n = .ok (ids, a') →
      ids.length = n ∧ a'.Wf ∧ ∀ i ∈ ids, a.low ≤ i ∧ i ≤ a.high) := by
  refine ⟨⟨rfl, rfl, rfl, rfl⟩, ?_, ?_, ?_⟩
  · intro a n h
    simp [IDAllocator.allocate, h]
  · intro a n h1 h2
    unfold IDAllocator.allocate
    rw [if_neg (by omega), if_neg (by omega)]
  · intro a n ids a' hwf hok
    obtain ⟨hlo, hhi, hfree⟩ := hwf
    unfold IDAllocator.allocate at hok
    split at hok
    · rename_i hn
      have hinj := Except.ok.inj hok
      rw [Prod.mk.injEq] at hinj
      obtain ⟨rfl, rfl⟩ := hinj
      refine ⟨by simp [List.length_take]; omega, ?_, ?_⟩
      · exact ⟨hlo, hhi, fun i hi => hfree i (List.mem_of_mem_drop hi)⟩
      · intro i hi
        have := hfree i (List.mem_of_mem_take hi)
        omega
    · split at hok
      · rename_i hn hc
        have hinj := Except.ok.inj hok
        rw [Prod.mk.injEq] at hinj
        obtain ⟨rfl, rfl⟩ := hinj
        refine ⟨by simp, ?_, ?_⟩
        · refine ⟨show a.low ≤ a.cursor + n by omega,
            show a.cursor + n ≤ a.high + 1 by omega, fun i hi => ?_⟩
          have h2 := hfree i hi
          refine ⟨h2.1, ?_⟩
          show i < a.cursor + n
          omega
        · intro i hi
          have := List.mem_range'_1.mp hi
          omega
      · simp at hok

/-- Witness for claim C2: the general branches of the allocator applied at
concrete states. -/
theorem claim_C2_witness :
    (2 ≤ ([7, 3] : List ℕ).length ∧
      (IDAllocator.mk 0 9 8 [7, 3]).allocate 2 = .ok ([7, 3], ⟨0, 9, 8, []⟩)) ∧
    ((([] : List ℕ).length < 3 ∧ 9 + 1 < 8 + 3) ∧
      (IDAllocator.mk 0 9 8 []).allocate 3 = .error .Exhausted) :=
  ⟨⟨by decide, claim_C2.2.1 ⟨0, 9, 8, [7, 3]⟩ 2 (by decide)⟩,
   ⟨⟨by decide, by decide⟩, claim_C2.2.2.1 ⟨0, 9, 8, []⟩ 3 (by decide) (by decide)⟩⟩

/-- Claim C3: for a reply queue holding n >= 1 items, one get with
skip=true returns the n-th (most recent) item and increments skips by
n-1, emptying the queue; get with skip=false returns the oldest item,
leaves the remaining items, and leaves skips unchanged. -/
theorem claim_C3 {α : Type} (q : MsgQueue α) (h : q.items ≠ []) :
    MsgQueue.get true q =
      some (q.items.getLast h, ⟨[], q.skips + (q.items.length - 1)⟩) ∧
    MsgQueue.get false q =
      some (q.items.head h, ⟨q.items.tail, q.skips⟩) := by
  obtain ⟨tt, sk⟩ := q
  cases tt with
  | nil => exact absurd rfl h
  | cons x xs => simp [MsgQueue.get]

/-- Witness for claim C3: a queue of four items; skip=true returns the
fourth and counts three skips, skip=false returns the first. -/
theorem claim_C3_witness :
    (([1, 2, 3, 4] : List ℕ) ≠ []) ∧
    MsgQueue.get true (MsgQueue.mk [1, 2, 3, 4] 0) = some (4, ⟨[], 3⟩) ∧
    MsgQueue.get false (MsgQueue.mk [1, 2, 3, 4] 0) = some (1, ⟨[2, 3, 4], 0⟩) := by
  have h := claim_C3 (MsgQueue.mk ([1, 2, 3, 4] : List ℕ) 0) (by decide)
  exact ⟨by decide, by simpa using h.1, by simpa using h.2⟩

/-- Claim C4: sync() allocates a fresh 31-bit positive id, sends /sync id,
and each in-flight sync caller receives exactly the /synced reply whose
integer argument equals its own id, independent of arrival order — in
particular for two concurrent ids 42 and 77 whose replies arrive in
reverse order. -/
theorem claim_C4 :
    (∀ seed, 0 < genSyncId seed ∧ genSyncId seed < 2 ^ 31) ∧
    (∀ id, syncRequest id = ([47, 115, 121, 110, 99], [id])) ∧
    (∀ pending arrivals, ∀ p ∈ processSynced pending arrivals, p.2 = p.1) ∧
    processSynced [42, 77] [77, 42] = [(77, 77), (42, 42)] := by
  refine ⟨?_, fun id => rfl, processSynced_self, by decide⟩
  intro seed
  unfold genSyncId
  constructor
  · omega
  · have := Nat.mod_lt seed (y := 2 ^ 31 - 1) (by norm_num)
    omega

/-- Witness for claim C4: the generator applied at a concrete seed and the
matching property at a concrete delivery. -/
theorem claim_C4_witness :
    (0 < genSyncId 12345 ∧ genSyncId 12345 < 2 ^ 31) ∧
    ((77, 77) ∈ processSynced [42, 77] [77, 42] ∧ ((77, 77) : ℕ × ℕ).2 = (77, 77).1) :=
  ⟨claim_C4.1 12345,
   ⟨by decide, claim_C4.2.2.1 [42, 77] [77, 42] (77, 77) (by decide)⟩⟩

/-- Claim C9: if the encoded outgoing datagram exceeds the configured MTU
(default 8192), send fails synchronously with PacketTooLarge and no
datagram is transmitted; sends at or below the MTU do not fail for this
reason. -/
theorem claim_C9 (t : OSCTransport) (d : List ℕ) :
    defaultMTU = 8192 ∧
    (t.mtu < d.length → t.send d = (.error .PacketTooLarge, t)) ∧
    (d.length ≤ t.mtu → t.send d = (.ok (), ⟨t.mtu, t.sent ++ [d]⟩)) := by
  refine ⟨rfl, ?_, ?_⟩
  · intro h
    simp [OSCTransport.send, Nat.not_le.mpr h]
  · intro h
    simp [OSCTransport.send, h]

/-- Witness for claim C9: an oversized datagram is rejected and the
transmitted list is unchanged; a small one is appended. -/
theorem claim_C9_witness :
    (3 < ([9, 9, 9, 9] : List ℕ).length ∧
      (OSCTransport.mk 3 []).send [9, 9, 9, 9] = (.error .PacketTooLarge, ⟨3, []⟩)) ∧
    (([9, 9] : List ℕ).length ≤ 3 ∧
      (OSCTransport.mk 3 []).send [9, 9] = (.ok (), ⟨3, [[9, 9]]⟩)) :=
  ⟨⟨by decide, (claim_C9 ⟨3, []⟩ [9, 9, 9, 9]).2.1 (by decide)⟩,
   ⟨by decide, (claim_C9 ⟨3, []⟩ [9, 9]).2.2 (by decide)⟩⟩

theorem flattenAt_mk (ctx tt pt : ℚ) (cs : List BElem) :
    Bundler.flattenAt ctx (.mk tt pt cs) =
      .pbundle (ntpTimetag (resolveTime ctx tt))
        (flattenElems (resolveTime ctx tt) cs) := by
  simp [Bundler.flattenAt]

theorem flattenElems_cons_msg (T et : ℚ) (m : OSCMessage) (es : List BElem) :
    flattenElems T (.msg et m :: es) =
      .pbundle (ntpTimetag (resolveTime T et)) [.pmsg m] :: flattenElems T es := by
  simp [flattenElems]

theorem flattenElems_cons_sub (T et : ℚ) (c : Bundler) (es : List BElem) :
    flattenElems T (.sub et c :: es) =
      c.flattenAt (resolveTime T et) :: flattenElems T es := by
  simp [flattenElems]

theorem resolveTime_of_lt {t : ℚ} (ctx : ℚ) (h : t < smallTimetagBound) :
    resolveTime ctx t = ctx + t := by
  unfold resolveTime
  rw [if_pos h]

theorem resolveTime_of_ge {t : ℚ} (ctx : ℚ) (h : smallTimetagBound ≤ t) :
    resolveTime ctx t = t := by
  unfold resolveTime
  rw [if_neg (not_lt.mpr h)]

/-- Claim C7: a timetag input below 1e6 is interpreted as seconds relative
to the wall-clock read at flatten-to-datagram time; a larger value is
absolute Unix seconds converted to NTP by adding exactly 2208988800; the
encoded sentinel 1 (whole seconds 0, fraction 1) means "execute
immediately". -/
theorem claim_C7 :
    smallTimetagBound = 1000000 ∧
    (∀ off tt : ℚ, tt < smallTimetagBound → resolveTime off tt = off + tt) ∧
    (∀ off tt : ℚ, smallTimetagBound ≤ tt → resolveTime off tt = tt) ∧
    ntpDelta = 2208988800 ∧
    (∀ t : ℚ, t.floor.toNat + ntpDelta < 2 ^ 32 →
      ntpTimetag t / 2 ^ 32 = t.floor.toNat + ntpDelta) ∧
    (immediateTimetag = 1 ∧ immediateTimetag / 2 ^ 32 = 0 ∧
      immediateTimetag % 2 ^ 32 = 1) ∧
    (∀ (b : Bundler) (t0 : ℚ), b.flattenAt t0 =
      .pbundle (ntpTimetag (resolveTime t0 b.timetag))
        (flattenElems (resolveTime t0 b.timetag) b.contents)) := by
  refine ⟨rfl, fun off tt h => resolveTime_of_lt off h,
    fun off tt h => resolveTime_of_ge off h, rfl, ?_, ⟨rfl, by decide, by decide⟩, ?_⟩
  · intro t h
    unfold ntpTimetag
    omega
  · intro b t0
    cases b
    rw [flattenAt_mk]
    rfl

/-- Witness for claim C7: the relative rule at a half-second input, the
absolute rule at 2e6 seconds, and the NTP high word at t = 7. -/
theorem claim_C7_witness :
    ((mkRat 1 2 : ℚ) < smallTimetagBound ∧
      resolveTime 10 (mkRat 1 2) = 10 + mkRat 1 2) ∧
    (smallTimetagBound ≤ (2000000 : ℚ) ∧ resolveTime 10 2000000 = 2000000) ∧
    ((7 : ℚ).floor.toNat + ntpDelta < 2 ^ 32 ∧
      ntpTimetag 7 / 2 ^ 32 = (7 : ℚ).floor.toNat + ntpDelta) :=
  ⟨⟨by decide, claim_C7.2.1 10 (mkRat 1 2) (by decide)⟩,
   ⟨by decide, claim_C7.2.2.1 10 2000000 (by decide)⟩,
   ⟨by decide, claim_C7.2.2.2.2.1 7 (by decide)⟩⟩

/-- Claim C5: a nested child bundler added at a (relative) offset o is
flattened with context T + (passed_time + o); when its own base is small
it contributes a child bundle with timetag T + (passed_time + o) + base,
while an absolute base overrides the context entirely; the same rule
applies recursively to the children's own entries. -/
theorem claim_C5 :
    (∀ (p : Bundler) (o : ℚ) (c : Bundler), 0 ≤ o → o < smallTimetagBound →
      (p.addSub o c).contents = p.contents ++ [.sub (p.passedTime + o) c]) ∧
    (∀ (T et : ℚ) (c : Bundler) (rest : List BElem), et < smallTimetagBound →
      flattenElems T (.sub et c :: rest) =
        c.flattenAt (T + et) :: flattenElems T rest) ∧
    (∀ (ctx : ℚ) (c : Bundler), c.timetag < smallTimetagBound →
      c.flattenAt ctx =
        .pbundle (ntpTimetag (ctx + c.timetag))
          (flattenElems (ctx + c.timetag) c.contents)) ∧
    (∀ (ctx : ℚ) (c : Bundler), smallTimetagBound ≤ c.timetag →
      c.flattenAt ctx =
        .pbundle (ntpTimetag c.timetag) (flattenElems c.timetag c.contents)) := by
  refine ⟨?_, ?_, ?_, ?_⟩
  · intro p o c h1 h2
    cases p
    simp [Bundler.addSub, Bundler.entryTime, Bundler.contents, Bundler.passedTime,
      h2, max_eq_left h1]
  · intro T et c rest h
    rw [flattenElems_cons_sub, resolveTime_of_lt T h]
  · intro ctx c h
    cases c with
    | mk tt pt cs =>
      simp only [Bundler.timetag] at h
      rw [flattenAt_mk]
      simp only [Bundler.timetag, Bundler.contents]
      rw [resolveTime_of_lt ctx h]
  · intro ctx c h
    cases c with
    | mk tt pt cs =>
      simp only [Bundler.timetag] at h
      rw [flattenAt_mk]
      simp only [Bundler.timetag, Bundler.contents]
      rw [resolveTime_of_ge ctx h]

/-- Witness for claim C5: the pieces applied at concrete inputs — an add
at offset 1, a relative child with base 1/5 under context 3, and an
absolute child with base 2e6. -/
theorem claim_C5_witness :
    ((0 : ℚ) ≤ 1 ∧ (1 : ℚ) < smallTimetagBound ∧
      ((Bundler.new 0).addSub 1 (Bundler.new 7)).contents =
        (Bundler.new 0).contents ++
          [.sub ((Bundler.new 0).passedTime + 1) (Bundler.new 7)]) ∧
    ((mkRat 1 5 : ℚ) < smallTimetagBound ∧
      (Bundler.new (mkRat 1 5)).flattenAt 3 =
        .pbundle (ntpTimetag (3 + (Bundler.new (mkRat 1 5)).timetag))
          (flattenElems (3 + (Bundler.new (mkRat 1 5)).timetag)
            (Bundler.new (mkRat 1 5)).contents)) ∧
    (smallTimetagBound ≤ (2000000 : ℚ) ∧
      (Bundler.new 2000000).flattenAt 3 =
        .pbundle (ntpTimetag (Bundler.new 2000000).timetag)
          (flattenElems (Bundler.new 2000000).timetag
            (Bundler.new 2000000).contents)) :=
  ⟨⟨by decide, by decide,
      claim_C5.1 (Bundler.new 0) 1 (Bundler.new 7) (by decide) (by decide)⟩,
   ⟨by decide, claim_C5.2.2.1 3 (Bundler.new (mkRat 1 5)) (by decide)⟩,
   ⟨by decide, claim_C5.2.2.2 3 (Bundler.new 2000000) (by decide)⟩⟩

/-- Claim C10: add with an explicit (relative) offset anchors the new
entry at the bundler's current passed_time plus that offset, not at the
base alone: wait(1) before add(child) and add(0.8, child) delays both
resulting child bundles by one second, and interleaving the wait between
the two adds delays only the entry added afterwards. -/
theorem claim_C10 :
    (∀ (b : Bundler) (d o : ℚ) (c : Bundler), 0 ≤ o → o < smallTimetagBound →
      ((b.wait d).addSub o c).contents =
        b.contents ++ [.sub (b.passedTime + d + o) c] ∧
      ((b.wait d).addSubAuto c).contents =
        b.contents ++ [.sub (b.passedTime + d) c]) ∧
    (∀ (m : OSCMessage),
      Bundler.messagesAt 0
          (((Bundler.new 0).addSubAuto ((Bundler.new (1/5)).addMsgAuto m)).addSub
            (4/5) ((Bundler.new (1/5)).addMsgAuto m)) =
        [(1/5, m), (1, m)] ∧
      Bundler.messagesAt 0
          ((((Bundler.new 0).wait 1).addSubAuto
              ((Bundler.new (1/5)).addMsgAuto m)).addSub
            (4/5) ((Bundler.new (1/5)).addMsgAuto m)) =
        [(6/5, m), (2, m)] ∧
      Bundler.messagesAt 0
          ((((Bundler.new 0).addSubAuto ((Bundler.new (1/5)).addMsgAuto m)).wait
              1).addSub
            (4/5) ((Bundler.new (1/5)).addMsgAuto m)) =
        [(1/5, m), (2, m)]) := by
  constructor
  · intro b d o c h1 h2
    cases b with
    | mk tt pt cs =>
      constructor
      · simp only [Bundler.wait, Bundler.addSub, Bundler.entryTime,
          Bundler.contents, Bundler.passedTime, if_pos h2, max_eq_left h1]
      · simp only [Bundler.addSubAuto, Bundler.wait, Bundler.addSub,
          Bundler.entryTime, Bundler.contents, Bundler.passedTime]
        rw [if_pos (show (0 : ℚ) < smallTimetagBound by norm_num [smallTimetagBound])]
        norm_num
  · intro m
    refine ⟨?_, ?_, ?_⟩ <;>
      norm_num [Bundler.new, Bundler.wait, Bundler.addSubAuto, Bundler.addSub,
        Bundler.addMsgAuto, Bundler.addMsg, Bundler.entryTime,
        Bundler.messagesAt, messagesElems, resolveTime, smallTimetagBound,
        Bundler.timetag, Bundler.passedTime, Bundler.contents]

/-- Witness for claim C10: the anchoring rule applied after a wait of two
seconds at offset one. -/
theorem claim_C10_witness :
    ((0 : ℚ) ≤ 1 ∧ (1 : ℚ) < smallTimetagBound) ∧
    (((Bundler.new 0).wait 2).addSub 1 (Bundler.new 3)).contents =
      (Bundler.new 0).contents ++
        [.sub ((Bundler.new 0).passedTime + 2 + 1) (Bundler.new 3)] ∧
    (((Bundler.new 0).wait 2).addSubAuto (Bundler.new 3)).contents =
      (Bundler.new 0).contents ++
        [.sub ((Bundler.new 0).passedTime + 2) (Bundler.new 3)] :=
  ⟨⟨by decide, by decide⟩,
   (claim_C10.1 (Bundler.new 0) 2 1 (Bundler.new 3) (by decide) (by decide)).1,
   (claim_C10.1 (Bundler.new 0) 2 1 (Bundler.new 3) (by decide) (by decide)).2⟩

/-! ## The three construction forms of one logical schedule (spec 8) -/

/-- Modelled from the spec: form (a) of a schedule — explicit add(t, msg)
calls on one bundler (spec 8 property 2, spec 4.5). -/
def buildAdd (base : ℚ) (s : List (ℚ × OSCMessage)) : Bundler :=
  s.foldl (fun b e => b.addMsg e.1 e.2) (Bundler.new base)

/-- Modelled from the spec: form (c) — an active capture scope advancing
passed_time with wait(delta) before each implicitly-bundled msg call
(spec 8 property 2, spec 4.5); the fold state carries the previous
absolute offset so each wait covers the difference. -/
def buildWait (base : ℚ) (s : List (ℚ × OSCMessage)) : Bundler :=
  (s.foldl (fun p e => ((p.1.wait (e.1 - p.2)).addMsgAuto e.2, e.1))
    (Bundler.new base, 0)).1

/-- Modelled from the spec: form (b) — one singleton nested bundler per
message, added to the parent at the message's offset (spec 8 property 2,
spec 4.5). -/
def buildNested (base : ℚ) (s : List (ℚ × OSCMessage)) : Bundler :=
  s.foldl (fun b e => b.addSub e.1 ((Bundler.new 0).addMsgAuto e.2))
    (Bundler.new base)

theorem buildAdd_gen (tt : ℚ) (cs : List BElem) (s : List (ℚ × OSCMessage))
    (h : ∀ e ∈ s, 0 ≤ e.1 ∧ e.1 < smallTimetagBound) :
    s.foldl (fun (b : Bundler) e => b.addMsg e.1 e.2) (Bundler.mk tt 0 cs) =
      .mk tt 0 (cs ++ s.map (fun e => .msg e.1 e.2)) := by
  induction s generalizing cs with
  | nil => simp
  | cons e es ih =>
    have he := h e (by simp)
    have hstep : (Bundler.mk tt 0 cs).addMsg e.1 e.2 =
        .mk tt 0 (cs ++ [.msg e.1 e.2]) := by
      simp only [Bundler.addMsg, Bundler.entryTime, Bundler.passedTime,
        Bundler.timetag, Bundler.contents, if_pos he.2, max_eq_left he.1,
        zero_add]
    rw [List.foldl_cons, hstep, ih _ (fun x hx => h x (by simp [hx]))]
    simp

theorem buildWait_gen (tt prev : ℚ) (cs : List BElem)
    (s : List (ℚ × OSCMessage)) :
    ((s.foldl (fun p e => ((p.1.wait (e.1 - p.2)).addMsgAuto e.2, e.1))
        (Bundler.mk tt prev cs, prev)).1).timetag = tt ∧
    ((s.foldl (fun p e => ((p.1.wait (e.1 - p.2)).addMsgAuto e.2, e.1))
        (Bundler.mk tt prev cs, prev)).1).contents =
      cs ++ s.map (fun e => .msg e.1 e.2) := by
  induction s generalizing prev cs with
  | nil => simp [Bundler.timetag, Bundler.contents]
  | cons e es ih =>
    have hstep : ((Bundler.mk tt prev cs).wait (e.1 - prev)).addMsgAuto e.2 =
        .mk tt e.1 (cs ++ [.msg e.1 e.2]) := by
      simp only [Bundler.wait, Bundler.addMsgAuto, Bundler.addMsg,
        Bundler.entryTime, Bundler.passedTime, Bundler.timetag,
        Bundler.contents,
        if_pos (show (0 : ℚ) < smallTimetagBound by norm_num [smallTimetagBound]),
        Bundler.mk.injEq]
      norm_num
    rw [List.foldl_cons]
    simp only [hstep]
    have H := ih e.1 (cs ++ [.msg e.1 e.2])
    refine ⟨H.1, ?_⟩
    rw [H.2]
    simp

theorem buildNested_gen (tt : ℚ) (cs : List BElem)
    (s : List (ℚ × OSCMessage))
    (h : ∀ e ∈ s, 0 ≤ e.1 ∧ e.1 < smallTimetagBound) :
    s.foldl (fun (b : Bundler) e => b.addSub e.1 ((Bundler.new 0).addMsgAuto e.2))
        (Bundler.mk tt 0 cs) =
      .mk tt 0
        (cs ++ s.map (fun e => .sub e.1 ((Bundler.new 0).addMsgAuto e.2))) := by
  induction s generalizing cs with
  | nil => simp
  | cons e es ih =>
    have he := h e (by simp)
    have hstep : (Bundler.mk tt 0 cs).addSub e.1 ((Bundler.new 0).addMsgAuto e.2) =
        .mk tt 0 (cs ++ [.sub e.1 ((Bundler.new 0).addMsgAuto e.2)]) := by
      simp only [Bundler.addSub, Bundler.entryTime, Bundler.passedTime,
        Bundler.timetag, Bundler.contents, if_pos he.2, max_eq_left he.1,
        zero_add]
    rw [List.foldl_cons, hstep, ih _ (fun x hx => h x (by simp [hx]))]
    simp

theorem flattenAt_congr {b1 b2 : Bundler} (ctx : ℚ)
    (ht : b1.timetag = b2.timetag) (hc : b1.contents = b2.contents) :
    b1.flattenAt ctx = b2.flattenAt ctx := by
  cases b1
  cases b2
  simp only [Bundler.timetag, Bundler.contents] at ht hc
  subst ht
  subst hc
  rfl

theorem messagesAt_mk (ctx tt pt : ℚ) (cs : List BElem) :
    Bundler.messagesAt ctx (.mk tt pt cs) =
      messagesElems (resolveTime ctx tt) cs := by
  simp [Bundler.messagesAt]

theorem messages_single_child (ctx : ℚ) (m : OSCMessage) :
    Bundler.messagesAt ctx ((Bundler.new 0).addMsgAuto m) = [(ctx, m)] := by
  norm_num [Bundler.new, Bundler.addMsgAuto, Bundler.addMsg, Bundler.entryTime,
    Bundler.passedTime, Bundler.timetag, Bundler.contents, Bundler.messagesAt,
    messagesElems, resolveTime, smallTimetagBound]

theorem messagesElems_msg_list (T : ℚ) (s : List (ℚ × OSCMessage))
    (h : ∀ e ∈ s, e.1 < smallTimetagBound) :
    messagesElems T (s.map (fun e => .msg e.1 e.2)) =
      s.map (fun e => (T + e.1, e.2)) := by
  induction s with
  | nil => simp [messagesElems]
  | cons e es ih =>
    simp only [List.map_cons, messagesElems,
      resolveTime_of_lt T (h e (by simp))]
    rw [ih (fun x hx => h x (by simp [hx]))]

theorem messagesElems_sub_list (T : ℚ) (s : List (ℚ × OSCMessage))
    (h : ∀ e ∈ s, e.1 < smallTimetagBound) :
    messagesElems T (s.map (fun e => .sub e.1 ((Bundler.new 0).addMsgAuto e.2))) =
      s.map (fun e => (T + e.1, e.2)) := by
  induction s with
  | nil => simp [messagesElems]
  | cons e es ih =>
    simp only [List.map_cons, messagesElems,
      resolveTime_of_lt T (h e (by simp)), messages_single_child]
    rw [ih (fun x hx => h x (by simp [hx]))]
    simp

/-- Claim C1 (amended): for any logical schedule of non-negative relative
offsets, the explicit add(t, msg) form (a) and the capture-scope
wait/implicit-msg form (c) produce byte-identical datagrams from
to_raw_osc(time_offset); the nested-bundler form (b) reproduces the same
flat (absolute time, message) schedule as reported by messages(), but its
datagram nests each message one bundle level deeper, so it is not
byte-identical to the other two. -/
theorem claim_C1 (base t0 : ℚ) (s : List (ℚ × OSCMessage))
    (h : ∀ e ∈ s, 0 ≤ e.1 ∧ e.1 < smallTimetagBound)
    (hs : s.Chain' (fun e f => e.1 ≤ f.1)) :
    (buildWait base s).to_raw_osc t0 = (buildAdd base s).to_raw_osc t0 ∧
    (buildNested base s).messagesAt t0 = (buildAdd base s).messagesAt t0 := by
  have hA : buildAdd base s = .mk base 0 (s.map (fun e => .msg e.1 e.2)) := by
    have := buildAdd_gen base [] s h
    simpa [buildAdd, Bundler.new] using this
  have hN : buildNested base s =
      .mk base 0 (s.map (fun e => .sub e.1 ((Bundler.new 0).addMsgAuto e.2))) := by
    have := buildNested_gen base [] s h
    simpa [buildNested, Bundler.new] using this
  have hW := buildWait_gen base 0 [] s
  constructor
  · unfold Bundler.to_raw_osc
    congr 1
    apply flattenAt_congr
    · rw [hA, Bundler.timetag]
      simpa [buildWait, Bundler.new] using hW.1
    · rw [hA, Bundler.contents]
      have := hW.2
      simpa [buildWait, Bundler.new] using this
  · rw [hA, hN, messagesAt_mk, messagesAt_mk,
      messagesElems_sub_list _ s (fun e he => (h e he).2),
      messagesElems_msg_list _ s (fun e he => (h e he).2)]

/-- Counterexample to claim C1 as stated: for the one-entry schedule
(0.5, "/a"), the nested-bundler form (b) and the explicit-add form (a) do
not produce byte-identical datagrams — the nested form's datagram is 20
bytes longer (one extra bundle layer). -/
theorem claim_C1_counterexample :
    (buildNested 0 [(1/2, ⟨[47, 97], []⟩)]).to_raw_osc 0 ≠
      (buildAdd 0 [(1/2, ⟨[47, 97], []⟩)]).to_raw_osc 0 := by
  intro hEq
  have hlen := congrArg List.length hEq
  norm_num [Bundler.to_raw_osc, buildNested, buildAdd, Bundler.new,
    Bundler.addSub, Bundler.addMsg, Bundler.addMsgAuto, Bundler.entryTime,
    Bundler.passedTime, Bundler.timetag, Bundler.contents, Bundler.flattenAt,
    flattenElems, OSCPacket.encode, encodeElems, encodeMessage,
    encodeOscString, bundleHeader, smallTimetagBound, resolveTime,
    encodeNat32, encodeNat64] at hlen

/-- Witness for claim C1 (amended): the equivalence applied at the
two-entry schedule [(0, m), (1, m)] anchored at zero. -/
theorem claim_C1_witness :
    ((∀ e ∈ [((0 : ℚ), OSCMessage.mk [47, 97] []), (1, OSCMessage.mk [47, 97] [])],
        0 ≤ e.1 ∧ e.1 < smallTimetagBound) ∧
      List.Chain' (fun (e f : ℚ × OSCMessage) => e.1 ≤ f.1)
        [((0 : ℚ), OSCMessage.mk [47, 97] []), (1, OSCMessage.mk [47, 97] [])]) ∧
    ((buildWait 0 [((0 : ℚ), OSCMessage.mk [47, 97] []), (1, OSCMessage.mk [47, 97] [])]).to_raw_osc 0 =
        (buildAdd 0 [((0 : ℚ), OSCMessage.mk [47, 97] []), (1, OSCMessage.mk [47, 97] [])]).to_raw_osc 0 ∧
      (buildNested 0 [((0 : ℚ), OSCMessage.mk [47, 97] []), (1, OSCMessage.mk [47, 97] [])]).messagesAt 0 =
        (buildAdd 0 [((0 : ℚ), OSCMessage.mk [47, 97] []), (1, OSCMessage.mk [47, 97] [])]).messagesAt 0) :=
  ⟨⟨by decide, by simp⟩,
   claim_C1 0 0 [((0 : ℚ), OSCMessage.mk [47, 97] []), (1, OSCMessage.mk [47, 97] [])]
     (by decide) (by simp)⟩

theorem taskBefore_deadline_le {a b : TimedTask} (h : taskBefore a b) :
    a.deadline ≤ b.deadline := by
  rcases h with h | ⟨e, _⟩
  · exact le_of_lt h
  · exact le_of_eq e

theorem mem_insertTask {t v : TimedTask} {l : List TimedTask} :
    v ∈ insertTask t l ↔ v = t ∨ v ∈ l := by
  induction l with
  | nil => simp [insertTask]
  | cons u rest ih =>
    simp only [insertTask]
    split
    · simp [List.mem_cons]
    · simp [List.mem_cons, ih]
      tauto

theorem insertTask_pairwise {t : TimedTask} {l : List TimedTask}
    (hl : l.Pairwise taskBefore) (hfresh : ∀ u ∈ l, u.seq < t.seq) :
    (insertTask t l).Pairwise taskBefore := by
  induction l with
  | nil => simp [insertTask]
  | cons u rest ih =>
    rcases List.pairwise_cons.mp hl with ⟨hu, hrest⟩
    simp only [insertTask]
    split
    · rename_i hb
      refine List.pairwise_cons.mpr ⟨?_, hl⟩
      intro v hv
      rcases List.mem_cons.mp hv with rfl | hv
      · exact hb
      · exact taskBefore_trans hb (hu v hv)
    · rename_i hb
      refine List.pairwise_cons.mpr
        ⟨?_, ih hrest (fun v hv => hfresh v (by simp [hv]))⟩
      intro v hv
      rcases mem_insertTask.mp hv with rfl | hv
      · exact taskBefore_of_not hb (hfresh u (by simp))
      · exact hu v hv

theorem dropWhile_isDue_not_due (now : ℚ) (l : List TimedTask)
    (hp : l.Pairwise taskBefore) :
    ∀ t ∈ l.dropWhile (fun t => t.isDue now), now < t.deadline := by
  induction l with
  | nil => simp
  | cons u rest ih =>
    rcases List.pairwise_cons.mp hp with ⟨hu, hrest⟩
    by_cases hdu : u.isDue now
    · rw [List.dropWhile_cons]
      simp only [hdu, if_true]
      exact ih hrest
    · rw [List.dropWhile_cons]
      simp only [hdu, if_false]
      have hun : now < u.deadline := by
        simpa [TimedTask.isDue, not_le] using hdu
      intro t ht
      rcases List.mem_cons.mp ht with rfl | ht
      · exact hun
      · exact lt_of_lt_of_le hun (taskBefore_deadline_le (hu t ht))

/-- Claim C6: timed-queue tasks execute in (deadline, insertion-seq)
order — earlier deadline first, equal deadlines in submission order; a
task enqueued with an already-past deadline is not executed (back-dated)
at put time but runs at the next worker wake; for 50 tasks with deadlines
100 + i*(1/25) each logging i, draining the queue yields [0, 1, ..., 49]. -/
theorem claim_C6 :
    (∀ (q : TimedQueue) (e : TQEvent), q.Wf → (q.step e).Wf) ∧
    (∀ (q : TimedQueue) (now : ℚ), q.Wf →
      (q.tasks.takeWhile (fun t => t.isDue now)).Pairwise taskBefore) ∧
    (∀ (q : TimedQueue) (d : ℚ) (a : ℕ), (q.put d a).log = q.log) ∧
    (∀ (q : TimedQueue) (now : ℚ),
      (q.wake now).log =
        q.log ++ (q.tasks.takeWhile (fun t => t.isDue now)).map TimedTask.action ∧
      (q.Wf → ∀ t ∈ (q.wake now).tasks, now < t.deadline)) ∧
    (TimedQueue.run TimedQueue.empty
        ((List.range 50).map (fun (i : ℕ) => TQEvent.put (mkRat (2500 + (i : ℤ)) 25) i) ++
          [TQEvent.wake 200])).log = List.range 50 ∧
    (TimedQueue.run TimedQueue.empty
        [.put 1 10, .put 1 11, .put 1 12, .wake 1]).log = [10, 11, 12] := by
  refine ⟨?_, ?_, fun q d a => rfl, ?_, by decide, by decide⟩
  · intro q e hwf
    cases e with
    | put d a =>
      refine ⟨insertTask_pairwise hwf.1 (fun u hu => hwf.2 u hu), ?_⟩
      intro v hv
      rcases mem_insertTask.mp hv with rfl | hv
      · exact Nat.lt_succ_self _
      · exact Nat.lt_succ_of_lt (hwf.2 v hv)
    | wake now =>
      refine ⟨hwf.1.sublist (List.dropWhile_sublist _), ?_⟩
      intro v hv
      exact hwf.2 v ((List.dropWhile_sublist _).mem hv)
  · intro q now hwf
    exact hwf.1.sublist (List.takeWhile_sublist _)
  · intro q now
    exact ⟨rfl, fun hwf => dropWhile_isDue_not_due now q.tasks hwf.1⟩

/-- Witness for claim C6: the invariant and the not-yet-due property
applied at a concrete one-task queue. -/
theorem claim_C6_witness :
    TimedQueue.Wf ⟨[⟨1, 0, 7⟩], 1, []⟩ ∧
    TimedQueue.Wf ((TimedQueue.mk [⟨1, 0, 7⟩] 1 []).step (.put 2 8)) ∧
    ∀ t ∈ ((TimedQueue.mk [⟨1, 0, 7⟩] 1 []).wake 0).tasks, (0 : ℚ) < t.deadline := by
  have hwf : TimedQueue.Wf ⟨[⟨1, 0, 7⟩], 1, []⟩ := ⟨by simp, by simp⟩
  exact ⟨hwf, claim_C6.1 ⟨[⟨1, 0, 7⟩], 1, []⟩ (.put 2 8) hwf,
    (claim_C6.2.2.2.1 ⟨[⟨1, 0, 7⟩], 1, []⟩ 0).2 hwf⟩

/-- Claim C8: for every OSC message whose arguments come from the
supported untyped kinds (signed integer fitting 32 bits, float, string,
raw bytes), decoding the encoding yields the original address pattern and
argument list, with type tags assigned by the inference rule
int->int32 ('i'), float->float64 ('d'), str->string ('s'),
bytes->blob ('b'). -/
theorem claim_C8 (addr : List ℕ) (vals : List PyVal)
    (h : OSCMessage.Valid ⟨addr, vals.map inferArg⟩) :
    decodeMessage (encodeMessage ⟨addr, vals.map inferArg⟩) =
      some ⟨addr, vals.map inferArg⟩ ∧
    (vals.map inferArg).map OSCArg.tag =
      vals.map (fun v => match v with
        | .pint _ => 105
        | .pfloat _ => 100
        | .pstr _ => 115
        | .pbytes _ => 98) := by
  constructor
  · exact decodeMessage_encodeMessage _ h
  · clear h
    induction vals with
    | nil => rfl
    | cons v vs ih =>
      cases v <;> simp [inferArg, OSCArg.tag, ih]

/-- Witness for claim C8: a round trip at a concrete message with one
argument of each kind (and a negative int), address "/s". -/
theorem claim_C8_witness :
    OSCMessage.Valid
      ⟨[47, 115],
        [PyVal.pint 300, .pint (-5), .pfloat 123456789, .pstr [104, 105],
          .pbytes [0, 1, 2, 3, 4]].map inferArg⟩ ∧
    decodeMessage
        (encodeMessage
          ⟨[47, 115],
            [PyVal.pint 300, .pint (-5), .pfloat 123456789, .pstr [104, 105],
              .pbytes [0, 1, 2, 3, 4]].map inferArg⟩) =
      some
        ⟨[47, 115],
          [PyVal.pint 300, .pint (-5), .pfloat 123456789, .pstr [104, 105],
            .pbytes [0, 1, 2, 3, 4]].map inferArg⟩ :=
  ⟨by decide,
   (claim_C8 [47, 115]
      [PyVal.pint 300, .pint (-5), .pfloat 123456789, .pstr [104, 105],
        .pbytes [0, 1, 2, 3, 4]] (by decide)).1⟩

end Sc3nb
